import Mathlib

/-!
Formal model of `examples/mario/mario.py` (OpenTuner plays Super Mario Bros.).

Frame-index sets are modelled as `Finset ℕ`, Python strings as `String`,
Python floats as `ℚ` (all float operations the program performs on the
values of interest are exact), and `float('inf')` as `⊤ : WithTop ℚ`.
Fallible code (`raise ValueError`) is modelled with `Except`.
-/

/-- One frame of an fm2 movie, from `fm2_line` (mario.py lines 46-57).
The Python code builds the line by string concatenation and joins the
characters back together with `''.join`, which is the identity. -/
def fm2_line (up down left right a b start select : Bool) (reset : Bool) : String :=
  (if reset then "|1|" else "|0|") ++
  (if right then "R" else ".") ++
  (if left then "L" else ".") ++
  (if down then "D" else ".") ++
  (if up then "U" else ".") ++
  (if start then "T" else ".") ++
  (if select then "D" else ".") ++
  (if b then "B" else ".") ++
  (if a then "A" else ".") ++
  "|........||"

/-- `maxd(iterable, default)` (mario.py lines 59-63): `max` of the set, or the
default when the set is empty (Python `max` raises `ValueError` on an empty
iterable, which `maxd` catches). -/
def maxd (s : Finset ℕ) (d : ℕ) : ℕ :=
  s.max.unbot' d

/-- The default `maxFrame` computed on mario.py line 70 when the caller omits
it: `max(maxd(up,0), ..., maxd(reset,0)) + 1` (Python `max` of nine arguments,
folded here as nested binary `max`). -/
def autoMaxFrame (up down left right a b start select reset : Finset ℕ) : ℕ :=
  max (maxd up 0) (max (maxd down 0) (max (maxd left 0) (max (maxd right 0)
    (max (maxd a 0) (max (maxd b 0) (max (maxd start 0)
      (max (maxd select 0) (maxd reset 0)))))))) + 1

/-- `fm2_lines` (mario.py lines 65-74): one `fm2_line` per frame index in
`range(minFrame, maxFrame)`, with `minFrame` defaulting to `0` and `maxFrame`
defaulting to the `autoMaxFrame` expression. -/
def fm2_lines (up down left right a b start select reset : Finset ℕ)
    (minFrame maxFrame : Option ℕ) : List String :=
  let minF := minFrame.getD 0
  let maxF := maxFrame.getD (autoMaxFrame up down left right a b start select reset)
  (List.range' minF (maxF - minF)).map fun i =>
    fm2_line (decide (i ∈ up)) (decide (i ∈ down)) (decide (i ∈ left))
      (decide (i ∈ right)) (decide (i ∈ a)) (decide (i ∈ b))
      (decide (i ∈ start)) (decide (i ∈ select)) (decide (i ∈ reset))

/-- `fm2_smb_header` (mario.py lines 76-85): nine fixed header lines. -/
def fm2_smb_header : List String :=
  ["version 3",
   "emuVersion 9828",
   "romFilename smb.nes",
   "romChecksum base64:jjYwGG411HcjG/j9UOVM3Q==",
   "guid 51473540-E9D7-11E3-ADFC-46CE3219C4E0",
   "fourscore 0",
   "port0 1",
   "port1 1",
   "port2 0"]

/-- `fm2_smb` (mario.py lines 87-102), as the list of lines it joins with
newlines: with `padding` the five gameplay sets are shifted by 196, a reset is
added at frame 0 and a start press at frame 33; with `header` the nine header
lines are prepended. -/
def fm2_smbList (left right down b a : Finset ℕ) (header padding : Bool)
    (minFrame maxFrame : Option ℕ) : List String :=
  let leftP := if padding then left.image (· + 196) else left
  let rightP := if padding then right.image (· + 196) else right
  let downP := if padding then down.image (· + 196) else down
  let bP := if padding then b.image (· + 196) else b
  let aP := if padding then a.image (· + 196) else a
  let reset : Finset ℕ := if padding then {0} else ∅
  let start : Finset ℕ := if padding then {33} else ∅
  let lines := fm2_lines ∅ downP leftP rightP aP bP start ∅ reset minFrame maxFrame
  if header then fm2_smb_header ++ lines else lines

/-- `fm2_smb`'s actual return value: the lines joined with `"\n"`. -/
def fm2_smb (left right down b a : Finset ℕ) (header padding : Bool)
    (minFrame maxFrame : Option ℕ) : String :=
  String.intercalate "\n" (fm2_smbList left right down b a header padding minFrame maxFrame)

/-- Character of a line at a 0-based position (for reading button columns). -/
def charAt (s : String) (p : ℕ) : Char :=
  s.toList.getD p ' '

/-- The condition under which a gameplay button is pressed at emitted frame
`i`: membership of `i` in the button's set, shifted forward by the fixed 196
frame warm-up offset when padding is on. -/
def pressCond : Bool → Finset ℕ → ℕ → Prop
  | true, s, i => 196 ≤ i ∧ i - 196 ∈ s
  | false, s, i => i ∈ s

instance : ∀ (padding : Bool) (s : Finset ℕ) (i : ℕ), Decidable (pressCond padding s i)
  | true, _, _ => inferInstanceAs (Decidable (_ ∧ _))
  | false, _, _ => inferInstanceAs (Decidable (_ ∈ _))

/-! ## Representations -/

/-- The five button-press sets a representation's `interpret` returns
(mario.py returns the tuple `left, right, down, running, jumping`). -/
structure ButtonSets where
  left : Finset ℕ
  right : Finset ℕ
  down : Finset ℕ
  running : Finset ℕ
  jumping : Finset ℕ

/-- A configuration for `DurationRepresentation` (mario.py lines 170-181):
for each `i` in `range(0, 1000)` a move symbol `move{i}` (an `EnumParameter`
over eleven strings), a `move_duration{i}`, a `jump_frame{i}` and a
`jump_duration{i}`.  We model the four parameter families as functions on ℕ
(only indices `0..999` are ever read). -/
structure DurationCfg where
  move : ℕ → String
  move_duration : ℕ → ℕ
  jump_frame : ℕ → ℕ
  jump_duration : ℕ → ℕ

/-- The eleven legal move symbols (mario.py line 175). -/
def moveSymbols : List String :=
  ["R", "L", "RB", "LB", "N", "LR", "LRB", "R2", "RB2", "R3", "RB3"]

/-- The first loop of `DurationRepresentation.interpret` (mario.py lines
188-198) after `n` iterations: returns `(left, right, running, start)`.
Python's `"R" in move` is substring containment; for a one-character needle
this is character membership, modelled with `List.contains` on the move's
characters. `range(start, start + move_duration)` is the half-open
interval `Ico`. -/
def movesLoop (cfg : DurationCfg) : ℕ → Finset ℕ × Finset ℕ × Finset ℕ × ℕ
  | 0 => (∅, ∅, ∅, 0)
  | n + 1 =>
    let s := movesLoop cfg n
    let move := cfg.move n
    let move_duration := cfg.move_duration n
    ((if move.toList.contains 'L' then s.1 ∪ Finset.Ico s.2.2.2 (s.2.2.2 + move_duration) else s.1),
     (if move.toList.contains 'R' then s.2.1 ∪ Finset.Ico s.2.2.2 (s.2.2.2 + move_duration) else s.2.1),
     (if move.toList.contains 'B' then s.2.2.1 ∪ Finset.Ico s.2.2.2 (s.2.2.2 + move_duration) else s.2.2.1),
     s.2.2.2 + move_duration)

/-- The second loop of `DurationRepresentation.interpret` (mario.py lines
199-203) after `n` iterations: the jumping set. -/
def jumpsLoop (cfg : DurationCfg) : ℕ → Finset ℕ
  | 0 => ∅
  | n + 1 =>
    jumpsLoop cfg n ∪
      Finset.Ico (cfg.jump_frame n) (cfg.jump_frame n + cfg.jump_duration n)

/-- `DurationRepresentation.interpret` (mario.py lines 183-204).  `down` is
initialised to the empty set and never added to. -/
def DurationRepresentation.interpret (cfg : DurationCfg) : ButtonSets :=
  let s := movesLoop cfg 1000
  { left := s.1, right := s.2.1, down := ∅, running := s.2.2.1,
    jumping := jumpsLoop cfg 1000 }

/-- The frame cursor maintained by the first loop of
`DurationRepresentation.interpret` after `n` entries: the sum of the first
`n` move durations. -/
def moveCursor (cfg : DurationCfg) (n : ℕ) : ℕ :=
  ∑ j ∈ Finset.range n, cfg.move_duration j

/-- A concrete duration-run configuration: moves `("R",5)`, `("L",3)`, then
`"N"` entries. -/
def c3cfg : DurationCfg where
  move := fun i => if i = 0 then "R" else if i = 1 then "L" else "N"
  move_duration := fun i => if i = 0 then 5 else if i = 1 then 3 else 1
  jump_frame := fun _ => 0
  jump_duration := fun _ => 1

/-- A concrete duration-run configuration with every move duration `1`. -/
def c9cfg : DurationCfg where
  move := fun _ => "RB"
  move_duration := fun _ => 1
  jump_frame := fun _ => 0
  jump_duration := fun _ => 1

/-- A configuration for `AlphabetRepresentation` (mario.py lines 207-211):
one `EnumParameter` over `range(0, 16)` per frame index in
`range(0, 400*60)`, modelled as a function on ℕ. -/
def AlphabetCfg : Type := ℕ → ℕ

/-- A concrete bitmask-alphabet configuration: every frame's parameter
value is `3` (bits 0 and 1 set). -/
def c7cfg : AlphabetCfg := fun _ => 3

/-- The loop of `AlphabetRepresentation.interpret` (mario.py lines 219-228)
after `n` iterations: `(left, right, running, jumping)`.  A Python bitwise
test `if bits & k:` is truthy exactly when the conjunction is nonzero. -/
def alphabetLoop (cfg : AlphabetCfg) : ℕ → Finset ℕ × Finset ℕ × Finset ℕ × Finset ℕ
  | 0 => (∅, ∅, ∅, ∅)
  | n + 1 =>
    let s := alphabetLoop cfg n
    let bits := cfg n
    ((if bits &&& 1 ≠ 0 then insert n s.1 else s.1),
     (if bits &&& 2 ≠ 0 then insert n s.2.1 else s.2.1),
     (if bits &&& 4 ≠ 0 then insert n s.2.2.1 else s.2.2.1),
     (if bits &&& 8 ≠ 0 then insert n s.2.2.2 else s.2.2.2))

/-- `AlphabetRepresentation.interpret` (mario.py lines 213-231); `down` stays
empty (the `bits & 16` branch is commented out in the source). -/
def AlphabetRepresentation.interpret (cfg : AlphabetCfg) : ButtonSets :=
  let s := alphabetLoop cfg (400 * 60)
  { left := s.1, right := s.2.1, down := ∅, running := s.2.2.1,
    jumping := s.2.2.2 }

/-! ## Fitness functions

Python floats are modelled as ℚ: on the integer inputs these functions
receive, negation, the additions in `ProgressPlusTimeRemaining`, and the
divisions checked below are exact in binary64. -/

/-- `Progress.__call__` (mario.py lines 241-243): `-float(x_pos)`. -/
def Progress (won : Bool) (x_pos elapsed_frames : ℚ) : ℚ :=
  -x_pos

/-- `ProgressPlusTimeRemaining.__call__` (mario.py lines 245-248). -/
def ProgressPlusTimeRemaining (won : Bool) (x_pos elapsed_frames : ℚ) : ℚ :=
  if won then -(x_pos + 400 * 60 - elapsed_frames) else -x_pos

/-- `ProgressTimesAverageSpeed.__call__` (mario.py lines 250-252):
`-x_pos * (float(x_pos)/elapsed_frames)`.  Python raises on division by
zero, so the model is faithful only for `elapsed_frames ≠ 0`. -/
def ProgressTimesAverageSpeed (won : Bool) (x_pos elapsed_frames : ℚ) : ℚ :=
  -x_pos * (x_pos / elapsed_frames)

/-! ## Evaluation harness -/

/-- Split a character list at every occurrence of a separator (the segments
between separators, like Python `str.split(sep)` with a one-character
separator). -/
def splitOnChar (sep : Char) : List Char → List (List Char)
  | [] => [[]]
  | ch :: rest =>
    let r := splitOnChar sep rest
    if ch == sep then [] :: r
    else (ch :: r.headD []) :: r.tail

/-- The numeric value of a digit string, as Python `int` reads it. -/
def digitsToNat (cs : List Char) : ℕ :=
  cs.foldl (fun n c => 10 * n + (c.toNat - 48)) 0

/-- Whether one line of emulator stdout matches the anchored regular
expression `^(won|died) (\d+) (\d+)$` of mario.py line 116 (with
`re.MULTILINE`, `^`/`$` anchor to line boundaries, so a match is exactly a
whole line of this shape), and if so the three captured groups. -/
def matchOutcome (line : List Char) : Option (String × ℕ × ℕ) :=
  match splitOnChar ' ' line with
  | [w, x, f] =>
    if (w = "won".toList ∨ w = "died".toList) ∧ x ≠ [] ∧ f ≠ [] ∧
        x.all Char.isDigit ∧ f.all Char.isDigit then
      some (String.mk w, digitsToNat x, digitsToNat f)
    else none
  | _ => none

/-- `run_movie` (mario.py lines 104-124) as a function of the captured
stdout: `re.search` finds the first matching line; when no line matches the
function raises `ValueError`, modelled as `Except.error`. -/
def run_movie (stdout : String) : Except Unit (String × ℕ × ℕ) :=
  match (splitOnChar '\n' stdout.toList).findSome? matchOutcome with
  | some r => Except.ok r
  | none => Except.error ()

/-- `opentuner.resultsdb.models.Result` as used by `SMBMI.compile`:
a state string and a time, where `float('inf')` is `⊤ : WithTop ℚ`. -/
structure EvalResult where
  state : String
  time : WithTop ℚ
  deriving DecidableEq

/-- Python substring containment (`needle in haystack`) on char lists. -/
def strContains (needle hay : List Char) : Bool :=
  (List.range (hay.length + 1)).any fun k => (hay.drop k).take needle.length == needle

/-- `SMBMI.compile` (mario.py lines 263-271) as a function of the fitness
function and the emulator's captured stdout: the `ValueError` raised by
`run_movie` when no outcome line is present is caught and turned into
`Result(state='ERROR', time=float('inf'))`; otherwise the result is
`Result(state='OK', time=fitness_function("won" in wl, x_pos, framecount))`. -/
def SMBMI.compile (fitness : Bool → ℚ → ℚ → ℚ) (stdout : String) : EvalResult :=
  match run_movie stdout with
  | Except.error _ => { state := "ERROR", time := ⊤ }
  | Except.ok (wl, x_pos, framecount) =>
      { state := "OK",
        time := (fitness (strContains "won".toList wl.toList) x_pos framecount : ℚ) }

example : SMBMI.compile Progress "hello\nwon 3161 1200\nbye" =
    { state := "OK", time := ((-3161 : ℚ) : WithTop ℚ) } := by decide
example : SMBMI.compile Progress "fceux says nothing useful" =
    { state := "ERROR", time := ⊤ } := by decide

/-! ## Helper lemmas -/

example : (fm2_lines ∅ ∅ ∅ ∅ ∅ ∅ ∅ ∅ ∅ none none).length = 1 := by rfl

example : (fm2_smbList ∅ ∅ ∅ ∅ ∅ false true none none).length = 34 := by rfl

theorem fm2_line_toList (up down left right a b start select reset : Bool) :
    (fm2_line up down left right a b start select reset).toList =
      ['|', if reset then '1' else '0', '|',
       if right then 'R' else '.',
       if left then 'L' else '.',
       if down then 'D' else '.',
       if up then 'U' else '.',
       if start then 'T' else '.',
       if select then 'D' else '.',
       if b then 'B' else '.',
       if a then 'A' else '.',
       '|', '.', '.', '.', '.', '.', '.', '.', '.', '|', '|'] := by
  cases reset <;> cases right <;> cases left <;> cases down <;> cases up <;>
    cases start <;> cases select <;> cases b <;> cases a <;> rfl

/-- The columns of one rendered frame line: the reset flag at position 1 and
the seven button columns at their fixed positions. -/
theorem fm2_line_charAt (up down left right a b start select reset : Bool) :
    charAt (fm2_line up down left right a b start select reset) 1 =
        (if reset then '1' else '0') ∧
    charAt (fm2_line up down left right a b start select reset) 3 =
        (if right then 'R' else '.') ∧
    charAt (fm2_line up down left right a b start select reset) 4 =
        (if left then 'L' else '.') ∧
    charAt (fm2_line up down left right a b start select reset) 5 =
        (if down then 'D' else '.') ∧
    charAt (fm2_line up down left right a b start select reset) 6 =
        (if up then 'U' else '.') ∧
    charAt (fm2_line up down left right a b start select reset) 7 =
        (if start then 'T' else '.') ∧
    charAt (fm2_line up down left right a b start select reset) 9 =
        (if b then 'B' else '.') ∧
    charAt (fm2_line up down left right a b start select reset) 10 =
        (if a then 'A' else '.') := by
  simp only [charAt, fm2_line_toList]
  exact ⟨rfl, rfl, rfl, rfl, rfl, rfl, rfl, rfl⟩

theorem fm2_lines_length (up down left right a b start select reset : Finset ℕ)
    (m M : ℕ) :
    (fm2_lines up down left right a b start select reset (some m) (some M)).length =
      M - m := by
  simp [fm2_lines, List.length_range']

theorem fm2_lines_getD (up down left right a b start select reset : Finset ℕ)
    (m M j : ℕ) (hj : j < M - m) :
    (fm2_lines up down left right a b start select reset (some m) (some M)).getD j "" =
      fm2_line (decide ((m + j) ∈ up)) (decide ((m + j) ∈ down))
        (decide ((m + j) ∈ left)) (decide ((m + j) ∈ right))
        (decide ((m + j) ∈ a)) (decide ((m + j) ∈ b))
        (decide ((m + j) ∈ start)) (decide ((m + j) ∈ select))
        (decide ((m + j) ∈ reset)) := by
  have hlen : j < (fm2_lines up down left right a b start select reset
      (some m) (some M)).length := by
    rw [fm2_lines_length]; exact hj
  rw [List.getD_eq_getElem _ _ hlen]
  simp [fm2_lines, List.getElem_range']

theorem mem_image_add_196 (s : Finset ℕ) (i : ℕ) :
    i ∈ s.image (· + 196) ↔ 196 ≤ i ∧ i - 196 ∈ s := by
  simp only [Finset.mem_image]
  constructor
  · rintro ⟨x, hx, rfl⟩
    exact ⟨by omega, by simpa using hx⟩
  · rintro ⟨h1, h2⟩
    exact ⟨i - 196, h2, by omega⟩

theorem mem_padded_iff (padding : Bool) (s : Finset ℕ) (i : ℕ) :
    i ∈ (if padding then s.image (· + 196) else s) ↔ pressCond padding s i := by
  cases padding
  · simp [pressCond]
  · show i ∈ s.image (· + 196) ↔ _
    rw [mem_image_add_196]
    exact Iff.rfl

theorem ite_char_eq_iff (c : Bool) (P : Prop) (hc : c = true ↔ P) (x y : Char)
    (hxy : x ≠ y) :
    ((if c then x else y) = x ↔ P) ∧
    ((if c then x else y) = x ∨ (if c then x else y) = y) := by
  cases c
  · simp only [Bool.false_eq_true, false_iff] at hc
    simp [hxy.symm, hc]
  · simp only [true_iff] at hc
    simp [hc]

theorem ite_decide_char {P Q : Prop} [Decidable P] [Decidable Q] (h : P ↔ Q)
    (x y : Char) :
    (if decide P = true then x else y) = if Q then x else y :=
  if_congr (by rw [decide_eq_true_iff]; exact h) rfl rfl

theorem unbot'_zero_sup (x y : WithBot ℕ) :
    (x ⊔ y).unbot' 0 = max (x.unbot' 0) (y.unbot' 0) := by
  cases x with
  | bot => simp
  | coe a =>
    cases y with
    | bot => simp
    | coe b => rw [← WithBot.coe_sup]; rfl

theorem maxd_union (s t : Finset ℕ) :
    maxd (s ∪ t) 0 = max (maxd s 0) (maxd t 0) := by
  rw [maxd, maxd, maxd, Finset.max_union, unbot'_zero_sup]

/-! ## Claim theorems -/

/-- C6: the three fitness functions compute exactly:
`Progress` is `-x_pos` for all arguments (so `Progress(False,100,50) = -100`);
`ProgressPlusTimeRemaining(True,3161,1200)` with horizon `400*60 = 24000`
is `-(3161 + 24000 - 1200)` while for `won = False` it is `-x_pos`; and
`ProgressTimesAverageSpeed` is `-x_pos * (x_pos / elapsed_frames)` for
positive `elapsed_frames` (so `(False,200,100)` gives `-400`). -/
theorem fitness_functions_exact (won : Bool) (x_pos elapsed_frames : ℚ)
    (hf : 0 < elapsed_frames) :
    Progress won x_pos elapsed_frames = -x_pos ∧
    Progress false 100 50 = -100 ∧
    ProgressPlusTimeRemaining true 3161 1200 = -(3161 + 24000 - 1200) ∧
    ProgressPlusTimeRemaining false x_pos elapsed_frames = -x_pos ∧
    ProgressTimesAverageSpeed won x_pos elapsed_frames = -x_pos * (x_pos / elapsed_frames) ∧
    ProgressTimesAverageSpeed false 200 100 = -400 := by
  refine ⟨rfl, by norm_num [Progress], by norm_num [ProgressPlusTimeRemaining],
    rfl, rfl, by norm_num [ProgressTimesAverageSpeed]⟩

theorem fitness_functions_exact_witness :
    (0 : ℚ) < 50 ∧
    (Progress false 100 50 = -100 ∧
     Progress false 100 50 = -100 ∧
     ProgressPlusTimeRemaining true 3161 1200 = -(3161 + 24000 - 1200) ∧
     ProgressPlusTimeRemaining false 100 50 = -100 ∧
     ProgressTimesAverageSpeed false 100 50 = -100 * (100 / 50) ∧
     ProgressTimesAverageSpeed false 200 100 = -400) :=
  ⟨by norm_num, fitness_functions_exact false 100 50 (by norm_num)⟩

/-- C2: whenever the captured stdout contains no line matching
`^(won|died) (\d+) (\d+)$`, `SMBMI.compile` returns a result with
`state = "ERROR"` and `time = +infinity` (the `ValueError` raised inside
`run_movie` is caught in `compile`, so in the modelled total function no
exception escapes), for every fitness function. -/
theorem compile_error_path (fitness : Bool → ℚ → ℚ → ℚ) (stdout : String)
    (h : ∀ line ∈ splitOnChar '\n' stdout.toList, matchOutcome line = none) :
    SMBMI.compile fitness stdout = { state := "ERROR", time := ⊤ } := by
  unfold SMBMI.compile run_movie
  rw [List.findSome?_eq_none_iff.mpr h]

theorem compile_error_path_witness :
    (∀ line ∈ splitOnChar '\n' ("fceux says nothing useful").toList,
      matchOutcome line = none) ∧
    SMBMI.compile Progress "fceux says nothing useful" =
      { state := "ERROR", time := ⊤ } :=
  ⟨by decide, compile_error_path Progress "fceux says nothing useful" (by decide)⟩

/-- C8: for every duration-run configuration the `down` set returned by
`DurationRepresentation.interpret` is empty (it is proved for all
configurations, in particular all those within the declared domains). -/
theorem duration_down_empty (cfg : DurationCfg) :
    (DurationRepresentation.interpret cfg).down = ∅ := rfl

/-- C10: with padding enabled, all five input sets empty and no explicit
bounds, `fm2_smb` emits exactly 34 frame lines (the synthesized reset at
frame 0 and start press at frame 33 drive the automatic `maxFrame`
computation to 34), plus the nine header lines when the header is on. -/
theorem padded_empty_emits_34_lines :
    autoMaxFrame ∅ ∅ ∅ ∅ ∅ ∅ {33} ∅ {0} = 34 ∧
    (fm2_smbList ∅ ∅ ∅ ∅ ∅ false true none none).length = 34 ∧
    (fm2_smbList ∅ ∅ ∅ ∅ ∅ true true none none).length = 9 + 34 := by
  refine ⟨rfl, rfl, rfl⟩

/-- C4 counterexample: with every input set empty and both bounds omitted,
the computed `maxFrame` is `1`, not the default `minFrame = 0`, and
`fm2_lines` emits one frame line, not zero (each empty set contributes the
default `0` to the `max`, and `1` is then added). -/
theorem fm2_lines_all_empty_cx :
    autoMaxFrame ∅ ∅ ∅ ∅ ∅ ∅ ∅ ∅ ∅ = 1 ∧
    (fm2_lines ∅ ∅ ∅ ∅ ∅ ∅ ∅ ∅ ∅ none none).length = 1 := by
  refine ⟨rfl, rfl⟩

/-- C4 amended: for arbitrary input sets, when `maxFrame` is omitted it is
computed as one more than the maximum frame index appearing in any of the
input sets, where the maximum of the empty union counts as `0` (each empty
set contributes the default `0`); in particular, when every input set is
empty the computed `maxFrame` is `1` and exactly one frame line is
emitted. -/
theorem autoMaxFrame_amended (up down left right a b start select reset : Finset ℕ) :
    autoMaxFrame up down left right a b start select reset =
      maxd (up ∪ down ∪ left ∪ right ∪ a ∪ b ∪ start ∪ select ∪ reset) 0 + 1 ∧
    ((up = ∅ ∧ down = ∅ ∧ left = ∅ ∧ right = ∅ ∧ a = ∅ ∧ b = ∅ ∧
      start = ∅ ∧ select = ∅ ∧ reset = ∅) →
     autoMaxFrame up down left right a b start select reset = 1 ∧
     (fm2_lines up down left right a b start select reset none none).length = 1) := by
  constructor
  · simp only [maxd_union, autoMaxFrame, max_assoc]
  · intro h
    obtain ⟨h1, h2, h3, h4, h5, h6, h7, h8, h9⟩ := h
    subst h1; subst h2; subst h3; subst h4; subst h5
    subst h6; subst h7; subst h8; subst h9
    exact ⟨rfl, rfl⟩

theorem autoMaxFrame_amended_witness :
    (autoMaxFrame ∅ ∅ ∅ ∅ ∅ ∅ ∅ ∅ ∅ =
      maxd (∅ ∪ ∅ ∪ ∅ ∪ ∅ ∪ ∅ ∪ ∅ ∪ ∅ ∪ ∅ ∪ ∅) 0 + 1) ∧
    (autoMaxFrame ∅ ∅ ∅ ∅ ∅ ∅ ∅ ∅ ∅ = 1 ∧
     (fm2_lines ∅ ∅ ∅ ∅ ∅ ∅ ∅ ∅ ∅ none none).length = 1) :=
  ⟨(autoMaxFrame_amended ∅ ∅ ∅ ∅ ∅ ∅ ∅ ∅ ∅).1,
   (autoMaxFrame_amended ∅ ∅ ∅ ∅ ∅ ∅ ∅ ∅ ∅).2 (by simp)⟩

/-- C1: with explicit bounds `minFrame` and `maxFrame`, the movie encoding
emits exactly `maxFrame - minFrame` frame lines (plus the nine header lines
when the header is requested), and in each emitted frame line the character
at a button's fixed column is that button's letter code if and only if the
line's frame index (shifted back by the 196-frame padding offset when
padding is on, as `pressCond` states) is a member of that button's set, and
is the placeholder `'.'` otherwise. -/
theorem fm2_smb_frame_lines (left right down b a : Finset ℕ) (padding : Bool)
    (m M j : ℕ) (hj : j < M - m) :
    (fm2_smbList left right down b a false padding (some m) (some M)).length = M - m ∧
    (fm2_smbList left right down b a true padding (some m) (some M)).length =
      fm2_smb_header.length + (M - m) ∧
    charAt ((fm2_smbList left right down b a false padding (some m) (some M)).getD j "") 3 =
      (if pressCond padding right (m + j) then 'R' else '.') ∧
    charAt ((fm2_smbList left right down b a false padding (some m) (some M)).getD j "") 4 =
      (if pressCond padding left (m + j) then 'L' else '.') ∧
    charAt ((fm2_smbList left right down b a false padding (some m) (some M)).getD j "") 5 =
      (if pressCond padding down (m + j) then 'D' else '.') ∧
    charAt ((fm2_smbList left right down b a false padding (some m) (some M)).getD j "") 9 =
      (if pressCond padding b (m + j) then 'B' else '.') ∧
    charAt ((fm2_smbList left right down b a false padding (some m) (some M)).getD j "") 10 =
      (if pressCond padding a (m + j) then 'A' else '.') := by
  have hred : fm2_smbList left right down b a false padding (some m) (some M) =
      fm2_lines ∅ (if padding then down.image (· + 196) else down)
        (if padding then left.image (· + 196) else left)
        (if padding then right.image (· + 196) else right)
        (if padding then a.image (· + 196) else a)
        (if padding then b.image (· + 196) else b)
        (if padding then ({33} : Finset ℕ) else ∅) ∅
        (if padding then ({0} : Finset ℕ) else ∅) (some m) (some M) := rfl
  have hredh : fm2_smbList left right down b a true padding (some m) (some M) =
      fm2_smb_header ++ fm2_lines ∅ (if padding then down.image (· + 196) else down)
        (if padding then left.image (· + 196) else left)
        (if padding then right.image (· + 196) else right)
        (if padding then a.image (· + 196) else a)
        (if padding then b.image (· + 196) else b)
        (if padding then ({33} : Finset ℕ) else ∅) ∅
        (if padding then ({0} : Finset ℕ) else ∅) (some m) (some M) := rfl
  have hline := fm2_lines_getD ∅ (if padding then down.image (· + 196) else down)
    (if padding then left.image (· + 196) else left)
    (if padding then right.image (· + 196) else right)
    (if padding then a.image (· + 196) else a)
    (if padding then b.image (· + 196) else b)
    (if padding then ({33} : Finset ℕ) else ∅) ∅
    (if padding then ({0} : Finset ℕ) else ∅) m M j hj
  have hchars := fm2_line_charAt
    (decide ((m + j) ∈ (∅ : Finset ℕ)))
    (decide ((m + j) ∈ (if padding then down.image (· + 196) else down)))
    (decide ((m + j) ∈ (if padding then left.image (· + 196) else left)))
    (decide ((m + j) ∈ (if padding then right.image (· + 196) else right)))
    (decide ((m + j) ∈ (if padding then a.image (· + 196) else a)))
    (decide ((m + j) ∈ (if padding then b.image (· + 196) else b)))
    (decide ((m + j) ∈ (if padding then ({33} : Finset ℕ) else ∅)))
    (decide ((m + j) ∈ (∅ : Finset ℕ)))
    (decide ((m + j) ∈ (if padding then ({0} : Finset ℕ) else ∅)))
  refine ⟨?_, ?_, ?_, ?_, ?_, ?_, ?_⟩
  · rw [hred, fm2_lines_length]
  · rw [hredh, List.length_append, fm2_lines_length]
  · rw [hred, hline, hchars.2.1, ite_decide_char (mem_padded_iff padding right (m + j))]
  · rw [hred, hline, hchars.2.2.1, ite_decide_char (mem_padded_iff padding left (m + j))]
  · rw [hred, hline, hchars.2.2.2.1, ite_decide_char (mem_padded_iff padding down (m + j))]
  · rw [hred, hline, hchars.2.2.2.2.2.2.1, ite_decide_char (mem_padded_iff padding b (m + j))]
  · rw [hred, hline, hchars.2.2.2.2.2.2.2, ite_decide_char (mem_padded_iff padding a (m + j))]

theorem fm2_smb_frame_lines_witness :
    196 < 200 - 0 ∧
    ((fm2_smbList {0} {0} ∅ ∅ ∅ false true (some 0) (some 200)).length = 200 - 0 ∧
     (fm2_smbList {0} {0} ∅ ∅ ∅ true true (some 0) (some 200)).length =
       fm2_smb_header.length + (200 - 0) ∧
     charAt ((fm2_smbList {0} {0} ∅ ∅ ∅ false true (some 0) (some 200)).getD 196 "") 3 =
       (if pressCond true ({0} : Finset ℕ) (0 + 196) then 'R' else '.') ∧
     charAt ((fm2_smbList {0} {0} ∅ ∅ ∅ false true (some 0) (some 200)).getD 196 "") 4 =
       (if pressCond true ({0} : Finset ℕ) (0 + 196) then 'L' else '.') ∧
     charAt ((fm2_smbList {0} {0} ∅ ∅ ∅ false true (some 0) (some 200)).getD 196 "") 5 =
       (if pressCond true (∅ : Finset ℕ) (0 + 196) then 'D' else '.') ∧
     charAt ((fm2_smbList {0} {0} ∅ ∅ ∅ false true (some 0) (some 200)).getD 196 "") 9 =
       (if pressCond true (∅ : Finset ℕ) (0 + 196) then 'B' else '.') ∧
     charAt ((fm2_smbList {0} {0} ∅ ∅ ∅ false true (some 0) (some 200)).getD 196 "") 10 =
       (if pressCond true (∅ : Finset ℕ) (0 + 196) then 'A' else '.')) :=
  ⟨by decide, fm2_smb_frame_lines {0} {0} ∅ ∅ ∅ true 0 200 196 (by decide)⟩

/-- C5: with padding enabled and automatic bounds, `fm2_smb` shifts every
input frame index forward by the fixed 196-frame warm-up offset, emits a
one-time reset exactly on the frame-0 line (reset column `'1'` there, `'0'`
on every other line) and a one-time start press exactly on the frame-33 line
(start column `'T'` there, `'.'` elsewhere) — the frame at which the menu
warm-up ends, 196 - 33 = 163 frames before shifted gameplay input begins —
regardless of the contents of the input sets. -/
theorem fm2_smb_padding_events (left right down b a : Finset ℕ) (j : ℕ)
    (hj : j < (fm2_smbList left right down b a false true none none).length) :
    34 ≤ (fm2_smbList left right down b a false true none none).length ∧
    charAt ((fm2_smbList left right down b a false true none none).getD j "") 1 =
      (if j = 0 then '1' else '0') ∧
    charAt ((fm2_smbList left right down b a false true none none).getD j "") 7 =
      (if j = 33 then 'T' else '.') ∧
    charAt ((fm2_smbList left right down b a false true none none).getD j "") 3 =
      (if 196 ≤ j ∧ j - 196 ∈ right then 'R' else '.') ∧
    charAt ((fm2_smbList left right down b a false true none none).getD j "") 4 =
      (if 196 ≤ j ∧ j - 196 ∈ left then 'L' else '.') ∧
    charAt ((fm2_smbList left right down b a false true none none).getD j "") 5 =
      (if 196 ≤ j ∧ j - 196 ∈ down then 'D' else '.') ∧
    charAt ((fm2_smbList left right down b a false true none none).getD j "") 9 =
      (if 196 ≤ j ∧ j - 196 ∈ b then 'B' else '.') ∧
    charAt ((fm2_smbList left right down b a false true none none).getD j "") 10 =
      (if 196 ≤ j ∧ j - 196 ∈ a then 'A' else '.') := by
  have hred : fm2_smbList left right down b a false true none none =
      fm2_lines ∅ (down.image (· + 196)) (left.image (· + 196))
        (right.image (· + 196)) (a.image (· + 196)) (b.image (· + 196))
        {33} ∅ {0} (some 0)
        (some (autoMaxFrame ∅ (down.image (· + 196)) (left.image (· + 196))
          (right.image (· + 196)) (a.image (· + 196)) (b.image (· + 196))
          {33} ∅ {0})) := rfl
  have hlen : (fm2_smbList left right down b a false true none none).length =
      autoMaxFrame ∅ (down.image (· + 196)) (left.image (· + 196))
        (right.image (· + 196)) (a.image (· + 196)) (b.image (· + 196))
        {33} ∅ {0} - 0 := by
    rw [hred, fm2_lines_length]
  have hj' : j < autoMaxFrame ∅ (down.image (· + 196)) (left.image (· + 196))
      (right.image (· + 196)) (a.image (· + 196)) (b.image (· + 196))
      {33} ∅ {0} - 0 := hlen ▸ hj
  have hline := fm2_lines_getD ∅ (down.image (· + 196)) (left.image (· + 196))
    (right.image (· + 196)) (a.image (· + 196)) (b.image (· + 196))
    {33} ∅ {0} 0
    (autoMaxFrame ∅ (down.image (· + 196)) (left.image (· + 196))
      (right.image (· + 196)) (a.image (· + 196)) (b.image (· + 196))
      {33} ∅ {0}) j hj'
  rw [Nat.zero_add] at hline
  have hchars := fm2_line_charAt
    (decide (j ∈ (∅ : Finset ℕ)))
    (decide (j ∈ down.image (· + 196)))
    (decide (j ∈ left.image (· + 196)))
    (decide (j ∈ right.image (· + 196)))
    (decide (j ∈ a.image (· + 196)))
    (decide (j ∈ b.image (· + 196)))
    (decide (j ∈ ({33} : Finset ℕ)))
    (decide (j ∈ (∅ : Finset ℕ)))
    (decide (j ∈ ({0} : Finset ℕ)))
  have h33 : (33 : ℕ) ≤ max (maxd (∅ : Finset ℕ) 0)
      (max (maxd (down.image (· + 196)) 0) (max (maxd (left.image (· + 196)) 0)
      (max (maxd (right.image (· + 196)) 0) (max (maxd (a.image (· + 196)) 0)
      (max (maxd (b.image (· + 196)) 0) (max (maxd ({33} : Finset ℕ) 0)
      (max (maxd (∅ : Finset ℕ) 0) (maxd ({0} : Finset ℕ) 0)))))))) :=
    le_max_of_le_right (le_max_of_le_right (le_max_of_le_right
      (le_max_of_le_right (le_max_of_le_right (le_max_of_le_right
        (le_max_left _ _))))))
  refine ⟨?_, ?_, ?_, ?_, ?_, ?_, ?_, ?_⟩
  · rw [hlen, Nat.sub_zero]
    exact Nat.succ_le_succ h33
  · rw [hred, hline, hchars.1, ite_decide_char Finset.mem_singleton]
  · rw [hred, hline, hchars.2.2.2.2.2.1, ite_decide_char Finset.mem_singleton]
  · rw [hred, hline, hchars.2.1, ite_decide_char (mem_image_add_196 right j)]
  · rw [hred, hline, hchars.2.2.1, ite_decide_char (mem_image_add_196 left j)]
  · rw [hred, hline, hchars.2.2.2.1, ite_decide_char (mem_image_add_196 down j)]
  · rw [hred, hline, hchars.2.2.2.2.2.2.1, ite_decide_char (mem_image_add_196 b j)]
  · rw [hred, hline, hchars.2.2.2.2.2.2.2, ite_decide_char (mem_image_add_196 a j)]

theorem fm2_smb_padding_events_witness :
    33 < (fm2_smbList ∅ ∅ ∅ ∅ ∅ false true none none).length ∧
    (34 ≤ (fm2_smbList ∅ ∅ ∅ ∅ ∅ false true none none).length ∧
     charAt ((fm2_smbList ∅ ∅ ∅ ∅ ∅ false true none none).getD 33 "") 1 =
       (if (33 : ℕ) = 0 then '1' else '0') ∧
     charAt ((fm2_smbList ∅ ∅ ∅ ∅ ∅ false true none none).getD 33 "") 7 =
       (if (33 : ℕ) = 33 then 'T' else '.') ∧
     charAt ((fm2_smbList ∅ ∅ ∅ ∅ ∅ false true none none).getD 33 "") 3 =
       (if 196 ≤ (33 : ℕ) ∧ (33 : ℕ) - 196 ∈ (∅ : Finset ℕ) then 'R' else '.') ∧
     charAt ((fm2_smbList ∅ ∅ ∅ ∅ ∅ false true none none).getD 33 "") 4 =
       (if 196 ≤ (33 : ℕ) ∧ (33 : ℕ) - 196 ∈ (∅ : Finset ℕ) then 'L' else '.') ∧
     charAt ((fm2_smbList ∅ ∅ ∅ ∅ ∅ false true none none).getD 33 "") 5 =
       (if 196 ≤ (33 : ℕ) ∧ (33 : ℕ) - 196 ∈ (∅ : Finset ℕ) then 'D' else '.') ∧
     charAt ((fm2_smbList ∅ ∅ ∅ ∅ ∅ false true none none).getD 33 "") 9 =
       (if 196 ≤ (33 : ℕ) ∧ (33 : ℕ) - 196 ∈ (∅ : Finset ℕ) then 'B' else '.') ∧
     charAt ((fm2_smbList ∅ ∅ ∅ ∅ ∅ false true none none).getD 33 "") 10 =
       (if 196 ≤ (33 : ℕ) ∧ (33 : ℕ) - 196 ∈ (∅ : Finset ℕ) then 'A' else '.')) :=
  ⟨by decide, fm2_smb_padding_events ∅ ∅ ∅ ∅ ∅ 33 (by decide)⟩

/-- Entries whose move symbol is `"N"` leave the left/right/running sets of
the moves loop unchanged (only the cursor advances). -/
theorem movesLoop_N_frozen (cfg : DurationCfg) (n : ℕ) (hn : 2 ≤ n)
    (h : ∀ i, i < n → 2 ≤ i → cfg.move i = "N") :
    (movesLoop cfg n).1 = (movesLoop cfg 2).1 ∧
    (movesLoop cfg n).2.1 = (movesLoop cfg 2).2.1 ∧
    (movesLoop cfg n).2.2.1 = (movesLoop cfg 2).2.2.1 := by
  induction n with
  | zero => omega
  | succ n ih =>
    rcases Nat.lt_or_ge n 2 with hlt | hge
    · have h2 : n + 1 = 2 := by omega
      rw [h2]
      exact ⟨rfl, rfl, rfl⟩
    · have hmove : cfg.move n = "N" := h n (by omega) hge
      obtain ⟨ih1, ih2, ih3⟩ := ih hge (fun i hi h2 => h i (by omega) h2)
      have hL : (("N" : String).toList.contains 'L') = false := by decide
      have hR : (("N" : String).toList.contains 'R') = false := by decide
      have hB : (("N" : String).toList.contains 'B') = false := by decide
      refine ⟨?_, ?_, ?_⟩ <;>
        simp only [movesLoop, hmove, hL, hR, hB, Bool.false_eq_true, if_false,
          ih1, ih2, ih3]

/-- C3: a duration-run configuration whose first two move entries are
`("R",5)` then `("L",3)` and whose remaining entries all have move symbol
`"N"` decodes to `right = {0,1,2,3,4}`, `left = {5,6,7}` and `running = ∅`:
each entry contributes the half-open range `[cursor, cursor+duration)` to
the sets named by the letters of its symbol, and the cursor advances by each
entry's duration. -/
theorem duration_interpret_RL_example (cfg : DurationCfg)
    (h0 : cfg.move 0 = "R") (h0d : cfg.move_duration 0 = 5)
    (h1 : cfg.move 1 = "L") (h1d : cfg.move_duration 1 = 3)
    (hN : ∀ i, i < 1000 → 2 ≤ i → cfg.move i = "N") :
    (DurationRepresentation.interpret cfg).right = {0, 1, 2, 3, 4} ∧
    (DurationRepresentation.interpret cfg).left = {5, 6, 7} ∧
    (DurationRepresentation.interpret cfg).running = ∅ := by
  obtain ⟨e1, e2, e3⟩ := movesLoop_N_frozen cfg 1000 (by omega) hN
  have hRL : (("R" : String).toList.contains 'L') = false := by decide
  have hRR : (("R" : String).toList.contains 'R') = true := by decide
  have hRB : (("R" : String).toList.contains 'B') = false := by decide
  have hLL : (("L" : String).toList.contains 'L') = true := by decide
  have hLR : (("L" : String).toList.contains 'R') = false := by decide
  have hLB : (("L" : String).toList.contains 'B') = false := by decide
  have hloop2 : movesLoop cfg 2 = (Finset.Ico 5 8, Finset.Ico 0 5, ∅, 8) := by
    have s0 : movesLoop cfg 0 = (∅, ∅, ∅, 0) := rfl
    have s1 : movesLoop cfg 1 = (∅, Finset.Ico 0 5, ∅, 5) := by
      show ((if (cfg.move 0).toList.contains 'L' then _ else _),
        (if (cfg.move 0).toList.contains 'R' then _ else _),
        (if (cfg.move 0).toList.contains 'B' then _ else _), _) = _
      rw [h0, h0d, s0]
      simp only [hRL, hRR, hRB, Bool.false_eq_true, if_false, if_true]
      decide
    show ((if (cfg.move 1).toList.contains 'L' then _ else _),
      (if (cfg.move 1).toList.contains 'R' then _ else _),
      (if (cfg.move 1).toList.contains 'B' then _ else _), _) = _
    rw [h1, h1d, s1]
    simp only [hLL, hLR, hLB, Bool.false_eq_true, if_false, if_true]
    decide
  refine ⟨?_, ?_, ?_⟩
  · show (movesLoop cfg 1000).2.1 = _
    rw [e2, hloop2]
    decide
  · show (movesLoop cfg 1000).1 = _
    rw [e1, hloop2]
    decide
  · show (movesLoop cfg 1000).2.2.1 = _
    rw [e3, hloop2]

theorem duration_interpret_RL_example_witness :
    (c3cfg.move 0 = "R" ∧ c3cfg.move_duration 0 = 5 ∧ c3cfg.move 1 = "L" ∧
     c3cfg.move_duration 1 = 3 ∧
     (∀ i, i < 1000 → 2 ≤ i → c3cfg.move i = "N")) ∧
    ((DurationRepresentation.interpret c3cfg).right = {0, 1, 2, 3, 4} ∧
     (DurationRepresentation.interpret c3cfg).left = {5, 6, 7} ∧
     (DurationRepresentation.interpret c3cfg).running = ∅) :=
  ⟨⟨rfl, rfl, rfl, rfl, fun i hi h2 => by
      have hne0 : i ≠ 0 := by omega
      have hne1 : i ≠ 1 := by omega
      simp [c3cfg, hne0, hne1]⟩,
   duration_interpret_RL_example c3cfg rfl rfl rfl rfl (fun i hi h2 => by
      have hne0 : i ≠ 0 := by omega
      have hne1 : i ≠ 1 := by omega
      simp [c3cfg, hne0, hne1])⟩

theorem mem_step (S : Finset ℕ) (n k : ℕ) (c : ℕ → Prop) [DecidablePred c]
    (hS : k ∈ S ↔ k < n ∧ c k) :
    (k ∈ (if c n then insert n S else S) ↔ k < n + 1 ∧ c k) := by
  split_ifs with h
  · rw [Finset.mem_insert, hS]
    constructor
    · rintro (rfl | ⟨hk, hp⟩)
      · exact ⟨Nat.lt_succ_self k, h⟩
      · exact ⟨Nat.lt_succ_of_lt hk, hp⟩
    · rintro ⟨hk, hp⟩
      rcases Nat.lt_succ_iff_lt_or_eq.mp hk with hk2 | rfl
      · exact Or.inr ⟨hk2, hp⟩
      · exact Or.inl rfl
  · rw [hS]
    constructor
    · rintro ⟨hk, hp⟩
      exact ⟨Nat.lt_succ_of_lt hk, hp⟩
    · rintro ⟨hk, hp⟩
      rcases Nat.lt_succ_iff_lt_or_eq.mp hk with hk2 | rfl
      · exact ⟨hk2, hp⟩
      · exact absurd hp h

/-- Membership in the four sets built by the bitmask-alphabet loop after `n`
iterations. -/
theorem alphabetLoop_mem (cfg : AlphabetCfg) (n k : ℕ) :
    (k ∈ (alphabetLoop cfg n).1 ↔ k < n ∧ cfg k &&& 1 ≠ 0) ∧
    (k ∈ (alphabetLoop cfg n).2.1 ↔ k < n ∧ cfg k &&& 2 ≠ 0) ∧
    (k ∈ (alphabetLoop cfg n).2.2.1 ↔ k < n ∧ cfg k &&& 4 ≠ 0) ∧
    (k ∈ (alphabetLoop cfg n).2.2.2 ↔ k < n ∧ cfg k &&& 8 ≠ 0) := by
  induction n with
  | zero => simp [alphabetLoop]
  | succ n ih =>
    obtain ⟨ih1, ih2, ih3, ih4⟩ := ih
    exact ⟨mem_step _ n k (fun m => cfg m &&& 1 ≠ 0) ih1,
      mem_step _ n k (fun m => cfg m &&& 2 ≠ 0) ih2,
      mem_step _ n k (fun m => cfg m &&& 4 ≠ 0) ih3,
      mem_step _ n k (fun m => cfg m &&& 8 ≠ 0) ih4⟩

theorem and_pow_ne_zero_iff (x i : ℕ) : x &&& 2 ^ i ≠ 0 ↔ x.testBit i = true := by
  rw [Nat.and_two_pow]
  cases h : x.testBit i <;> simp [h, pow_ne_zero]

/-- C7: for every bitmask-alphabet configuration and every frame `k` in the
horizon `400*60`, `AlphabetRepresentation.interpret` places `k` in `left`
iff bit 0 of the frame's parameter value is set, in `right` iff bit 1 is
set, in `running` iff bit 2 is set, and in `jumping` iff bit 3 is set; in
particular the value `3` places `k` in both `left` and `right`. -/
theorem alphabet_interpret_bits (cfg : AlphabetCfg) (k : ℕ) (hk : k < 400 * 60) :
    (k ∈ (AlphabetRepresentation.interpret cfg).left ↔ (cfg k).testBit 0 = true) ∧
    (k ∈ (AlphabetRepresentation.interpret cfg).right ↔ (cfg k).testBit 1 = true) ∧
    (k ∈ (AlphabetRepresentation.interpret cfg).running ↔ (cfg k).testBit 2 = true) ∧
    (k ∈ (AlphabetRepresentation.interpret cfg).jumping ↔ (cfg k).testBit 3 = true) ∧
    (cfg k = 3 → k ∈ (AlphabetRepresentation.interpret cfg).left ∧
      k ∈ (AlphabetRepresentation.interpret cfg).right) := by
  obtain ⟨m1, m2, m3, m4⟩ := alphabetLoop_mem cfg (400 * 60) k
  have b0 : cfg k &&& 1 ≠ 0 ↔ (cfg k).testBit 0 = true := by
    rw [show (1 : ℕ) = 2 ^ 0 by norm_num]
    exact and_pow_ne_zero_iff (cfg k) 0
  have b1 : cfg k &&& 2 ≠ 0 ↔ (cfg k).testBit 1 = true := by
    rw [show (2 : ℕ) = 2 ^ 1 by norm_num]
    exact and_pow_ne_zero_iff (cfg k) 1
  have b2 : cfg k &&& 4 ≠ 0 ↔ (cfg k).testBit 2 = true := by
    rw [show (4 : ℕ) = 2 ^ 2 by norm_num]
    exact and_pow_ne_zero_iff (cfg k) 2
  have b3 : cfg k &&& 8 ≠ 0 ↔ (cfg k).testBit 3 = true := by
    rw [show (8 : ℕ) = 2 ^ 3 by norm_num]
    exact and_pow_ne_zero_iff (cfg k) 3
  have f1 : (AlphabetRepresentation.interpret cfg).left =
      (alphabetLoop cfg (400 * 60)).1 := rfl
  have f2 : (AlphabetRepresentation.interpret cfg).right =
      (alphabetLoop cfg (400 * 60)).2.1 := rfl
  have f3 : (AlphabetRepresentation.interpret cfg).running =
      (alphabetLoop cfg (400 * 60)).2.2.1 := rfl
  have f4 : (AlphabetRepresentation.interpret cfg).jumping =
      (alphabetLoop cfg (400 * 60)).2.2.2 := rfl
  refine ⟨?_, ?_, ?_, ?_, ?_⟩
  · rw [f1, m1]
    exact ⟨fun h => b0.mp h.2, fun h => ⟨hk, b0.mpr h⟩⟩
  · rw [f2, m2]
    exact ⟨fun h => b1.mp h.2, fun h => ⟨hk, b1.mpr h⟩⟩
  · rw [f3, m3]
    exact ⟨fun h => b2.mp h.2, fun h => ⟨hk, b2.mpr h⟩⟩
  · rw [f4, m4]
    exact ⟨fun h => b3.mp h.2, fun h => ⟨hk, b3.mpr h⟩⟩
  · intro h3
    constructor
    · rw [f1, m1]
      exact ⟨hk, by rw [h3]; decide⟩
    · rw [f2, m2]
      exact ⟨hk, by rw [h3]; decide⟩

theorem alphabet_interpret_bits_witness :
    5 < 400 * 60 ∧
    ((5 ∈ (AlphabetRepresentation.interpret c7cfg).left ↔ (c7cfg 5).testBit 0 = true) ∧
     (5 ∈ (AlphabetRepresentation.interpret c7cfg).right ↔ (c7cfg 5).testBit 1 = true) ∧
     (5 ∈ (AlphabetRepresentation.interpret c7cfg).running ↔ (c7cfg 5).testBit 2 = true) ∧
     (5 ∈ (AlphabetRepresentation.interpret c7cfg).jumping ↔ (c7cfg 5).testBit 3 = true) ∧
     (c7cfg 5 = 3 → 5 ∈ (AlphabetRepresentation.interpret c7cfg).left ∧
       5 ∈ (AlphabetRepresentation.interpret c7cfg).right)) :=
  ⟨by decide, alphabet_interpret_bits c7cfg 5 (by decide)⟩

theorem movesLoop_succ_left (cfg : DurationCfg) (n : ℕ) :
    (movesLoop cfg (n + 1)).1 =
      if (cfg.move n).toList.contains 'L' then
        (movesLoop cfg n).1 ∪ Finset.Ico (movesLoop cfg n).2.2.2
          ((movesLoop cfg n).2.2.2 + cfg.move_duration n)
      else (movesLoop cfg n).1 := rfl

theorem movesLoop_succ_right (cfg : DurationCfg) (n : ℕ) :
    (movesLoop cfg (n + 1)).2.1 =
      if (cfg.move n).toList.contains 'R' then
        (movesLoop cfg n).2.1 ∪ Finset.Ico (movesLoop cfg n).2.2.2
          ((movesLoop cfg n).2.2.2 + cfg.move_duration n)
      else (movesLoop cfg n).2.1 := rfl

theorem movesLoop_succ_running (cfg : DurationCfg) (n : ℕ) :
    (movesLoop cfg (n + 1)).2.2.1 =
      if (cfg.move n).toList.contains 'B' then
        (movesLoop cfg n).2.2.1 ∪ Finset.Ico (movesLoop cfg n).2.2.2
          ((movesLoop cfg n).2.2.2 + cfg.move_duration n)
      else (movesLoop cfg n).2.2.1 := rfl

/-- The loop's running cursor equals the sum of the durations consumed. -/
theorem movesLoop_start_eq (cfg : DurationCfg) (n : ℕ) :
    (movesLoop cfg n).2.2.2 = moveCursor cfg n := by
  induction n with
  | zero => rfl
  | succ n ih =>
    show (movesLoop cfg n).2.2.2 + cfg.move_duration n = _
    rw [ih, moveCursor, moveCursor, Finset.sum_range_succ]

theorem moveCursor_succ (cfg : DurationCfg) (n : ℕ) :
    moveCursor cfg (n + 1) = moveCursor cfg n + cfg.move_duration n := by
  rw [moveCursor, moveCursor, Finset.sum_range_succ]

theorem moveCursor_mono (cfg : DurationCfg) {m n : ℕ} (h : m ≤ n) :
    moveCursor cfg m ≤ moveCursor cfg n :=
  Finset.sum_le_sum_of_subset (Finset.range_subset.mpr h)

theorem movesLoop_subsets (cfg : DurationCfg) (n : ℕ) :
    (movesLoop cfg n).1 ⊆ Finset.range (moveCursor cfg n) ∧
    (movesLoop cfg n).2.1 ⊆ Finset.range (moveCursor cfg n) ∧
    (movesLoop cfg n).2.2.1 ⊆ Finset.range (moveCursor cfg n) := by
  induction n with
  | zero =>
    refine ⟨?_, ?_, ?_⟩ <;> exact Finset.empty_subset _
  | succ n ih =>
    obtain ⟨ih1, ih2, ih3⟩ := ih
    have hst := movesLoop_start_eq cfg n
    have hmono : Finset.range (moveCursor cfg n) ⊆ Finset.range (moveCursor cfg (n + 1)) :=
      Finset.range_subset.mpr (moveCursor_mono cfg (Nat.le_succ n))
    have hIco : Finset.Ico (moveCursor cfg n) (moveCursor cfg n + cfg.move_duration n) ⊆
        Finset.range (moveCursor cfg (n + 1)) := by
      intro x hx
      rw [Finset.mem_Ico] at hx
      rw [Finset.mem_range, moveCursor_succ]
      omega
    refine ⟨?_, ?_, ?_⟩
    · rw [movesLoop_succ_left, hst]
      split_ifs
      · exact Finset.union_subset (ih1.trans hmono) hIco
      · exact ih1.trans hmono
    · rw [movesLoop_succ_right, hst]
      split_ifs
      · exact Finset.union_subset (ih2.trans hmono) hIco
      · exact ih2.trans hmono
    · rw [movesLoop_succ_running, hst]
      split_ifs
      · exact Finset.union_subset (ih3.trans hmono) hIco
      · exact ih3.trans hmono

theorem duration_ranges_disjoint (cfg : DurationCfg) {i j : ℕ} (hij : i < j) :
    Disjoint (Finset.Ico (moveCursor cfg i) (moveCursor cfg i + cfg.move_duration i))
      (Finset.Ico (moveCursor cfg j) (moveCursor cfg j + cfg.move_duration j)) := by
  rw [Finset.disjoint_left]
  intro x hx1 hx2
  rw [Finset.mem_Ico] at hx1 hx2
  have h1 : moveCursor cfg i + cfg.move_duration i ≤ moveCursor cfg j := by
    rw [← moveCursor_succ]
    exact moveCursor_mono cfg hij
  omega

theorem duration_ranges_cover (cfg : DurationCfg) (n : ℕ) :
    (Finset.range n).biUnion
        (fun m => Finset.Ico (moveCursor cfg m) (moveCursor cfg m + cfg.move_duration m)) =
      Finset.range (moveCursor cfg n) := by
  induction n with
  | zero => simp [moveCursor]
  | succ n ih =>
    rw [Finset.range_succ, Finset.biUnion_insert, ih, Finset.range_eq_Ico,
      ← moveCursor_succ cfg n, Finset.union_comm]
    exact Finset.Ico_union_Ico_eq_Ico (Nat.zero_le _)
      (by rw [moveCursor_succ]; omega)

set_option linter.constructorNameAsVariable false in
theorem duration_unique_entry (cfg : DurationCfg) (k : ℕ)
    (hk : k < moveCursor cfg 1000) :
    ∃! m, m < 1000 ∧
      k ∈ Finset.Ico (moveCursor cfg m) (moveCursor cfg m + cfg.move_duration m) := by
  have hmem : k ∈ (Finset.range 1000).biUnion
      (fun m => Finset.Ico (moveCursor cfg m) (moveCursor cfg m + cfg.move_duration m)) := by
    rw [duration_ranges_cover]
    exact Finset.mem_range.mpr hk
  rw [Finset.mem_biUnion] at hmem
  obtain ⟨m, hm, hkm⟩ := hmem
  refine ⟨m, ⟨Finset.mem_range.mp hm, hkm⟩, ?_⟩
  rintro m2 ⟨hm2, hkm2⟩
  by_contra hne
  rcases Nat.lt_or_ge m2 m with hlt | hge
  · exact (Finset.disjoint_left.mp (duration_ranges_disjoint cfg hlt) hkm2) hkm
  · have hlt2 : m < m2 := by omega
    exact (Finset.disjoint_left.mp (duration_ranges_disjoint cfg hlt2) hkm) hkm2

/-- C9: the left, right and running sets returned by
`DurationRepresentation.interpret` are subsets of `[0, S)` where `S` is the
sum of all 1000 move durations; the per-entry ranges
`[cursor m, cursor m + duration m)` are consecutive (the cursor of entry
`m+1` is the cursor of entry `m` plus its duration), pairwise disjoint, and
together partition `[0, S)`, so membership at any frame `k < S` is decided
by the unique move entry whose range contains `k`.  (The jumping set is
built from absolute-positioned entries and is not bounded by `S`.) -/
theorem duration_interpret_partition (cfg : DurationCfg) (i j k : ℕ)
    (hij : i < j) (hj : j < 1000) (hk : k < moveCursor cfg 1000) :
    ((DurationRepresentation.interpret cfg).left ⊆ Finset.range (moveCursor cfg 1000) ∧
     (DurationRepresentation.interpret cfg).right ⊆ Finset.range (moveCursor cfg 1000) ∧
     (DurationRepresentation.interpret cfg).running ⊆ Finset.range (moveCursor cfg 1000)) ∧
    (∀ n, moveCursor cfg (n + 1) = moveCursor cfg n + cfg.move_duration n) ∧
    Disjoint (Finset.Ico (moveCursor cfg i) (moveCursor cfg i + cfg.move_duration i))
      (Finset.Ico (moveCursor cfg j) (moveCursor cfg j + cfg.move_duration j)) ∧
    (Finset.range 1000).biUnion
        (fun m => Finset.Ico (moveCursor cfg m) (moveCursor cfg m + cfg.move_duration m)) =
      Finset.range (moveCursor cfg 1000) ∧
    (∃! m, m < 1000 ∧
      k ∈ Finset.Ico (moveCursor cfg m) (moveCursor cfg m + cfg.move_duration m)) := by
  obtain ⟨s1, s2, s3⟩ := movesLoop_subsets cfg 1000
  exact ⟨⟨s1, s2, s3⟩, moveCursor_succ cfg, duration_ranges_disjoint cfg hij,
    duration_ranges_cover cfg 1000, duration_unique_entry cfg k hk⟩

theorem duration_interpret_partition_witness :
    ((0 : ℕ) < 1 ∧ (1 : ℕ) < 1000 ∧ (0 : ℕ) < moveCursor c9cfg 1000) ∧
    (((DurationRepresentation.interpret c9cfg).left ⊆ Finset.range (moveCursor c9cfg 1000) ∧
      (DurationRepresentation.interpret c9cfg).right ⊆ Finset.range (moveCursor c9cfg 1000) ∧
      (DurationRepresentation.interpret c9cfg).running ⊆ Finset.range (moveCursor c9cfg 1000)) ∧
     (∀ n, moveCursor c9cfg (n + 1) = moveCursor c9cfg n + c9cfg.move_duration n) ∧
     Disjoint (Finset.Ico (moveCursor c9cfg 0) (moveCursor c9cfg 0 + c9cfg.move_duration 0))
       (Finset.Ico (moveCursor c9cfg 1) (moveCursor c9cfg 1 + c9cfg.move_duration 1)) ∧
     (Finset.range 1000).biUnion
         (fun m => Finset.Ico (moveCursor c9cfg m) (moveCursor c9cfg m + c9cfg.move_duration m)) =
       Finset.range (moveCursor c9cfg 1000) ∧
     (∃! m, m < 1000 ∧
       (0 : ℕ) ∈ Finset.Ico (moveCursor c9cfg m) (moveCursor c9cfg m + c9cfg.move_duration m))) :=
  ⟨⟨by decide, by decide, by simp [moveCursor, c9cfg]⟩,
   duration_interpret_partition c9cfg 0 1 0 (by decide) (by decide)
     (by simp [moveCursor, c9cfg])⟩
